import Mathlib

/-!
Verification of the Black-Scholes Greeks engine and strategy aggregator of the
polygon-mcp-server repository.

The numeric core lives in `OptionsGreeks.calculate_greeks` (duplicated, with
sign drift, across `polygon_mcp_server.py`, `polygon_mcp_server_clean.py`,
`polygon_mcp_server_stdio.py` and `market_parser_demo.py`) and in the
net-Greeks loop of `PolygonMCPClient.analyze_options_strategy`.

Python floats are modelled by real numbers; `scipy.stats.norm.pdf` / `norm.cdf`
by the exact standard normal density and its cumulative integral; Python
`round(x, 4)` by round-half-to-even at four decimal places.
-/

open MeasureTheory Set

noncomputable section

/-- Standard normal density, the model of `scipy.stats.norm.pdf`. -/
def normPdf (t : ℝ) : ℝ := Real.exp (-(1/2) * t ^ 2) / Real.sqrt (2 * Real.pi)

/-- Standard normal cumulative distribution, the model of `scipy.stats.norm.cdf`. -/
def normCdf (x : ℝ) : ℝ := ∫ t in Iic x, normPdf t

/-- Round-half-to-even to an integer, the model of Python built-in `round`. -/
def roundEven (x : ℝ) : ℤ :=
  if Int.fract x < 1/2 then ⌊x⌋
  else if 1/2 < Int.fract x then ⌊x⌋ + 1
  else if Even ⌊x⌋ then ⌊x⌋ else ⌊x⌋ + 1

/-- Model of Python `round(x, 4)`: round to four decimal places. -/
def round4 (x : ℝ) : ℝ := (roundEven (x * 10000) : ℝ) / 10000

theorem roundEven_eq {y : ℝ} (m : ℤ) (h1 : (m : ℝ) - 1/2 < y) (h2 : y < (m : ℝ) + 1/2) :
    roundEven y = m := by
  rcases le_or_lt (m : ℝ) y with h | h
  · have hf : ⌊y⌋ = m := Int.floor_eq_iff.mpr ⟨h, by linarith⟩
    have hfr : Int.fract y < 1/2 := by
      have := Int.self_sub_floor y
      rw [hf] at this
      linarith [this.symm.trans_le (le_refl _)]
    rw [roundEven, if_pos hfr, hf]
  · have hf : ⌊y⌋ = m - 1 := by
      apply Int.floor_eq_iff.mpr
      constructor
      · push_cast; linarith
      · push_cast; linarith
    have hfr : 1/2 < Int.fract y := by
      have := Int.self_sub_floor y
      rw [hf] at this
      push_cast at this
      linarith [this]
    rw [roundEven, if_neg (by linarith), if_pos hfr, hf]
    omega

theorem roundEven_sub_even (y : ℝ) (n : ℤ) (hn : Even n) :
    roundEven (y - (n : ℝ)) = roundEven y - n := by
  have he : Even (⌊y⌋ - n) ↔ Even ⌊y⌋ := by
    simp [Int.even_sub, hn]
  rw [roundEven, roundEven, Int.fract_sub_int, Int.floor_sub_int]
  simp only [he]
  split_ifs <;> omega

theorem round4_sub_one (x : ℝ) : round4 (x - 1) = round4 x - 1 := by
  rw [round4, round4]
  have h : (x - 1) * 10000 = x * 10000 - ((10000 : ℤ) : ℝ) := by push_cast; ring
  rw [h, roundEven_sub_even _ 10000 (by decide)]
  push_cast
  ring

theorem round4_eq {x : ℝ} (m : ℤ) (h1 : (m : ℝ) - 1/2 < x * 10000)
    (h2 : x * 10000 < (m : ℝ) + 1/2) : round4 x = (m : ℝ) / 10000 := by
  rw [round4, roundEven_eq m h1 h2]

theorem round4_zero : round4 0 = 0 := by
  rw [round4_eq 0 (by norm_num) (by norm_num)]
  norm_num

theorem sqrt_two_pi_pos : 0 < Real.sqrt (2 * Real.pi) :=
  Real.sqrt_pos.mpr (by positivity)

theorem sqrt_two_pi_gt : 2.50662 < Real.sqrt (2 * Real.pi) := by
  rw [show (2.50662 : ℝ) = Real.sqrt (2.50662 ^ 2) from
    (Real.sqrt_sq (by norm_num)).symm]
  apply Real.sqrt_lt_sqrt (by positivity)
  nlinarith [Real.pi_gt_d6]

theorem sqrt_two_pi_lt : Real.sqrt (2 * Real.pi) < 2.50663 := by
  rw [Real.sqrt_lt' (by norm_num)]
  nlinarith [Real.pi_lt_d6]

theorem integrable_normPdf : Integrable normPdf := by
  have h : Integrable (fun t : ℝ => Real.exp (-(1/2) * t ^ 2) / Real.sqrt (2 * Real.pi)) :=
    (integrable_exp_neg_mul_sq (by norm_num)).div_const _
  exact h

theorem integral_normPdf : (∫ t, normPdf t) = 1 := by
  have h2π : Real.sqrt (2 * Real.pi) ≠ 0 := ne_of_gt sqrt_two_pi_pos
  have h : (∫ t : ℝ, Real.exp (-(1/2) * t ^ 2) / Real.sqrt (2 * Real.pi))
      = (∫ t : ℝ, Real.exp (-(1/2) * t ^ 2)) / Real.sqrt (2 * Real.pi) :=
    integral_div _ _
  rw [show normPdf = fun t : ℝ => Real.exp (-(1/2) * t ^ 2) / Real.sqrt (2 * Real.pi) from rfl,
    h, integral_gaussian, show Real.pi / (1/2) = 2 * Real.pi by ring]
  exact div_self h2π

theorem normPdf_neg (t : ℝ) : normPdf (-t) = normPdf t := by
  simp [normPdf]

theorem normPdf_pos (t : ℝ) : 0 < normPdf t :=
  div_pos (Real.exp_pos _) sqrt_two_pi_pos

theorem normCdf_neg (x : ℝ) : normCdf (-x) = 1 - normCdf x := by
  have hsymm : (∫ t in Iic (-x), normPdf t) = ∫ t in Ioi x, normPdf t := by
    have h := integral_comp_neg_Iic (-x) normPdf
    simp only [normPdf_neg, neg_neg] at h
    exact h
  have h2 : (∫ t in Iic x, normPdf t) + ∫ t in Ioi x, normPdf t = ∫ t, normPdf t :=
    intervalIntegral.integral_Iic_add_Ioi integrable_normPdf.integrableOn
      integrable_normPdf.integrableOn
  rw [normCdf, normCdf, hsymm]
  rw [integral_normPdf] at h2
  linarith

theorem normCdf_zero : normCdf 0 = 1/2 := by
  have h := normCdf_neg 0
  rw [neg_zero] at h
  linarith

theorem normCdf_eq_add_intervalIntegral (x : ℝ) :
    normCdf x = 1/2 + ∫ t in (0:ℝ)..x, normPdf t := by
  have h : (∫ t in Iic x, normPdf t) - ∫ t in Iic (0:ℝ), normPdf t
      = ∫ t in (0:ℝ)..x, normPdf t :=
    intervalIntegral.integral_Iic_sub_Iic integrable_normPdf.integrableOn
      integrable_normPdf.integrableOn
  have h0 : normCdf 0 = 1/2 := normCdf_zero
  rw [normCdf] at h0 ⊢
  linarith

theorem one_sub_le_exp_neg (u : ℝ) : 1 - u ≤ Real.exp (-u) := by
  have := Real.add_one_le_exp (-u)
  linarith

theorem exp_neg_le_of_nonneg {u : ℝ} (hu : 0 ≤ u) : Real.exp (-u) ≤ 1 - u + u ^ 2 := by
  have hpos : (0:ℝ) < 1 + u := by linarith
  have h2 : 1 + u ≤ Real.exp u := by linarith [Real.add_one_le_exp u]
  have h4 : Real.exp (-u) ≤ (1 + u)⁻¹ := by
    rw [Real.exp_neg]
    exact inv_anti₀ hpos h2
  have h5 : (1 + u)⁻¹ ≤ 1 - u + u ^ 2 := by
    rw [inv_eq_one_div, div_le_iff₀ hpos]
    nlinarith [mul_nonneg (mul_nonneg hu hu) hu]
  linarith

theorem le_normPdf (t : ℝ) :
    (1 - (1/2) * t ^ 2) / Real.sqrt (2 * Real.pi) ≤ normPdf t := by
  rw [normPdf]
  gcongr
  have := one_sub_le_exp_neg ((1/2) * t ^ 2)
  calc 1 - (1/2) * t ^ 2 ≤ Real.exp (-((1/2) * t ^ 2)) := this
  _ = Real.exp (-(1/2) * t ^ 2) := by ring_nf

theorem normPdf_le (t : ℝ) :
    normPdf t ≤ (1 - (1/2) * t ^ 2 + (1/4) * t ^ 4) / Real.sqrt (2 * Real.pi) := by
  rw [normPdf]
  gcongr
  have hu : (0:ℝ) ≤ (1/2) * t ^ 2 := by positivity
  have h := exp_neg_le_of_nonneg hu
  calc Real.exp (-(1/2) * t ^ 2) = Real.exp (-((1/2) * t ^ 2)) := by ring_nf
  _ ≤ 1 - (1/2) * t ^ 2 + ((1/2) * t ^ 2) ^ 2 := h
  _ = 1 - (1/2) * t ^ 2 + (1/4) * t ^ 4 := by ring

theorem continuous_normPdf : Continuous normPdf :=
  ((Real.continuous_exp.comp (continuous_const.mul (continuous_pow 2))).div_const _)

theorem intervalIntegral_normPdf_bounds {x : ℝ} (hx : 0 ≤ x) :
    (x - x ^ 3 / 6) / Real.sqrt (2 * Real.pi) ≤ (∫ t in (0:ℝ)..x, normPdf t) ∧
    (∫ t in (0:ℝ)..x, normPdf t) ≤ (x - x ^ 3 / 6 + x ^ 5 / 20) / Real.sqrt (2 * Real.pi) := by
  have hi1 : IntervalIntegrable normPdf volume 0 x :=
    continuous_normPdf.intervalIntegrable 0 x
  have hclo : Continuous fun t : ℝ => (1 - (1/2) * t ^ 2) / Real.sqrt (2 * Real.pi) :=
    ((continuous_const.sub (continuous_const.mul (continuous_pow 2))).div_const _)
  have hchi : Continuous fun t : ℝ =>
      (1 - (1/2) * t ^ 2 + (1/4) * t ^ 4) / Real.sqrt (2 * Real.pi) :=
    (((continuous_const.sub (continuous_const.mul (continuous_pow 2))).add
      (continuous_const.mul (continuous_pow 4))).div_const _)
  have hplo : IntervalIntegrable
      (fun t : ℝ => (1 - (1/2) * t ^ 2) / Real.sqrt (2 * Real.pi)) volume 0 x :=
    hclo.intervalIntegrable 0 x
  have hphi : IntervalIntegrable
      (fun t : ℝ => (1 - (1/2) * t ^ 2 + (1/4) * t ^ 4) / Real.sqrt (2 * Real.pi)) volume 0 x :=
    hchi.intervalIntegrable 0 x
  have hsub : IntervalIntegrable (fun t : ℝ => (1/2) * t ^ 2) volume 0 x :=
    ((continuous_const.mul (continuous_pow 2)).intervalIntegrable 0 x)
  have hquart : IntervalIntegrable (fun t : ℝ => (1/4) * t ^ 4) volume 0 x :=
    ((continuous_const.mul (continuous_pow 4)).intervalIntegrable 0 x)
  have hone : IntervalIntegrable (fun _ : ℝ => (1:ℝ)) volume 0 x := intervalIntegrable_const
  have hvlo : (∫ t in (0:ℝ)..x, (1 - (1/2) * t ^ 2) / Real.sqrt (2 * Real.pi))
      = (x - x ^ 3 / 6) / Real.sqrt (2 * Real.pi) := by
    rw [intervalIntegral.integral_div]
    congr 1
    rw [intervalIntegral.integral_sub hone hsub, intervalIntegral.integral_const_mul,
      integral_pow, intervalIntegral.integral_const]
    simp
    ring
  have hvhi : (∫ t in (0:ℝ)..x, (1 - (1/2) * t ^ 2 + (1/4) * t ^ 4) / Real.sqrt (2 * Real.pi))
      = (x - x ^ 3 / 6 + x ^ 5 / 20) / Real.sqrt (2 * Real.pi) := by
    rw [intervalIntegral.integral_div]
    congr 1
    rw [intervalIntegral.integral_add (hone.sub hsub) hquart,
      intervalIntegral.integral_sub hone hsub, intervalIntegral.integral_const_mul,
      intervalIntegral.integral_const_mul, integral_pow, integral_pow,
      intervalIntegral.integral_const]
    simp
    ring
  constructor
  · rw [← hvlo]
    exact intervalIntegral.integral_mono_on hx hplo hi1 (fun t _ => le_normPdf t)
  · rw [← hvhi]
    exact intervalIntegral.integral_mono_on hx hi1 hphi (fun t _ => normPdf_le t)

theorem normCdf_poly_bounds {x : ℝ} (hx : 0 ≤ x) :
    1/2 + (x - x ^ 3 / 6) / Real.sqrt (2 * Real.pi) ≤ normCdf x ∧
    normCdf x ≤ 1/2 + (x - x ^ 3 / 6 + x ^ 5 / 20) / Real.sqrt (2 * Real.pi) := by
  have h := intervalIntegral_normPdf_bounds hx
  rw [normCdf_eq_add_intervalIntegral]
  constructor <;> linarith [h.1, h.2]

end

noncomputable section

theorem sqrt_quarter : Real.sqrt 0.25 = 0.5 := by
  rw [show (0.25 : ℝ) = 0.5 ^ 2 by norm_num, Real.sqrt_sq (by norm_num)]

theorem div_sqrt_two_pi_ge {A : ℝ} (hA : 0 ≤ A) :
    A / 2.50663 ≤ A / Real.sqrt (2 * Real.pi) := by
  rw [div_le_div_iff₀ (by norm_num) sqrt_two_pi_pos]
  nlinarith [sqrt_two_pi_lt, sqrt_two_pi_pos]

theorem div_sqrt_two_pi_le {A : ℝ} (hA : 0 ≤ A) :
    A / Real.sqrt (2 * Real.pi) ≤ A / 2.50662 := by
  rw [div_le_div_iff₀ sqrt_two_pi_pos (by norm_num)]
  nlinarith [sqrt_two_pi_gt, sqrt_two_pi_pos]

theorem normPdf_scen_bounds : 0.393672 ≤ normPdf 0.1625 ∧ normPdf 0.1625 ≤ 0.393747 := by
  constructor
  · have h1 := le_normPdf 0.1625
    have h3 := div_sqrt_two_pi_ge (A := 1 - (1/2) * (0.1625:ℝ) ^ 2) (by norm_num)
    have h2 : (0.393672 : ℝ) ≤ (1 - (1/2) * (0.1625:ℝ) ^ 2) / 2.50663 := by norm_num
    linarith
  · have h1 := normPdf_le 0.1625
    have h3 := div_sqrt_two_pi_le
      (A := 1 - (1/2) * (0.1625:ℝ) ^ 2 + (1/4) * (0.1625:ℝ) ^ 4) (by norm_num)
    have h2 : (1 - (1/2) * (0.1625:ℝ) ^ 2 + (1/4) * (0.1625:ℝ) ^ 4) / 2.50662
        ≤ (0.393747 : ℝ) := by norm_num
    linarith

theorem normCdf_scen_bounds : 0.564542 ≤ normCdf 0.1625 ∧ normCdf 0.1625 ≤ 0.564546 := by
  have h := normCdf_poly_bounds (x := 0.1625) (by norm_num)
  constructor
  · have h3 := div_sqrt_two_pi_ge (A := (0.1625:ℝ) - 0.1625 ^ 3 / 6) (by norm_num)
    have h2 : (0.064542 : ℝ) ≤ ((0.1625:ℝ) - 0.1625 ^ 3 / 6) / 2.50663 := by norm_num
    linarith [h.1]
  · have h3 := div_sqrt_two_pi_le
      (A := (0.1625:ℝ) - 0.1625 ^ 3 / 6 + 0.1625 ^ 5 / 20) (by norm_num)
    have h2 : ((0.1625:ℝ) - 0.1625 ^ 3 / 6 + 0.1625 ^ 5 / 20) / 2.50662 ≤ (0.064546:ℝ) := by
      norm_num
    linarith [h.2]

theorem normCdf_d2_scen_bounds : 0.514956 ≤ normCdf 0.0375 ∧ normCdf 0.0375 ≤ 0.514957 := by
  have h := normCdf_poly_bounds (x := 0.0375) (by norm_num)
  constructor
  · have h3 := div_sqrt_two_pi_ge (A := (0.0375:ℝ) - 0.0375 ^ 3 / 6) (by norm_num)
    have h2 : (0.014956 : ℝ) ≤ ((0.0375:ℝ) - 0.0375 ^ 3 / 6) / 2.50663 := by norm_num
    linarith [h.1]
  · have h3 := div_sqrt_two_pi_le
      (A := (0.0375:ℝ) - 0.0375 ^ 3 / 6 + 0.0375 ^ 5 / 20) (by norm_num)
    have h2 : ((0.0375:ℝ) - 0.0375 ^ 3 / 6 + 0.0375 ^ 5 / 20) / 2.50662 ≤ (0.014957:ℝ) := by
      norm_num
    linarith [h.2]

theorem exp_scen_bounds :
    0.9875 ≤ Real.exp (-(0.0125:ℝ)) ∧ Real.exp (-(0.0125:ℝ)) ≤ 0.987617 := by
  constructor
  · have := one_sub_le_exp_neg (0.0125:ℝ)
    linarith
  · have h1 : (1.00625:ℝ) ≤ Real.exp 0.00625 := by
      linarith [Real.add_one_le_exp (0.00625:ℝ)]
    have h2 : ((1.00625:ℝ)) ^ 2 ≤ Real.exp (0.0125:ℝ) := by
      have hexp : Real.exp (0.0125:ℝ) = Real.exp 0.00625 * Real.exp 0.00625 := by
        rw [← Real.exp_add]; norm_num
      rw [hexp, sq]
      exact mul_le_mul h1 h1 (by norm_num) (Real.exp_pos _).le
    have h3 : Real.exp (-(0.0125:ℝ)) ≤ (((1.00625:ℝ)) ^ 2)⁻¹ := by
      rw [Real.exp_neg]
      exact inv_anti₀ (by norm_num) h2
    have h4 : (((1.00625:ℝ)) ^ 2)⁻¹ ≤ 0.987617 := by norm_num
    linarith

end

noncomputable section

/-- Model of the Python string method `lower()`, mapping every character to
lower case (`String.toLower` has the same behaviour but does not reduce in
the kernel). -/
def pyLower (s : String) : String := String.mk (s.data.map Char.toLower)

/-- Result record of `OptionsGreeks.calculate_greeks` in `polygon_mcp_server.py`
(and `polygon_mcp_server_sse.py`): the returned dict has keys delta, gamma,
theta, vega, rho, implied_volatility. -/
structure Greeks where
  delta : ℝ
  gamma : ℝ
  theta : ℝ
  vega : ℝ
  rho : ℝ
  implied_volatility : ℝ

/-- Result record of `OptionsGreeks.calculate_greeks` in
`polygon_mcp_server_clean.py` / `polygon_mcp_server_stdio.py`: the returned
dict has only the five Greek keys. -/
structure CleanGreeks where
  delta : ℝ
  gamma : ℝ
  theta : ℝ
  vega : ℝ
  rho : ℝ

/-- Shallow embedding of `OptionsGreeks.calculate_greeks` from
`polygon_mcp_server.py` (lines 33-78). Python floats are modelled as reals,
`np.log` / `np.sqrt` / `np.exp` as `Real.log` / `Real.sqrt` / `Real.exp`,
`scipy.stats.norm.cdf` / `norm.pdf` as `normCdf` / `normPdf`,
`option_type.lower() == "call"` as `pyLower option_type = "call"`, and
`round(x, 4)` as `round4`. -/
def calculate_greeks (spot_price strike_price time_to_expiry risk_free_rate volatility : ℝ)
    (option_type : String) : Greeks :=
  if time_to_expiry ≤ 0 then
    { delta := if pyLower option_type = "call" ∧ spot_price > strike_price then 1.0 else 0.0
      gamma := 0.0
      theta := 0.0
      vega := 0.0
      rho := 0.0
      implied_volatility := volatility }
  else
    let d1 := (Real.log (spot_price / strike_price) +
        (risk_free_rate + 0.5 * volatility ^ 2) * time_to_expiry) /
        (volatility * Real.sqrt time_to_expiry)
    let d2 := d1 - volatility * Real.sqrt time_to_expiry
    let delta := if pyLower option_type = "call" then normCdf d1 else -normCdf (-d1)
    let rho := if pyLower option_type = "call" then
        strike_price * time_to_expiry * Real.exp (-risk_free_rate * time_to_expiry) *
          normCdf d2 / 100
      else
        -strike_price * time_to_expiry * Real.exp (-risk_free_rate * time_to_expiry) *
          normCdf (-d2) / 100
    let gamma := normPdf d1 / (spot_price * volatility * Real.sqrt time_to_expiry)
    let theta := (-(spot_price * normPdf d1 * volatility) / (2 * Real.sqrt time_to_expiry) -
        risk_free_rate * strike_price * Real.exp (-risk_free_rate * time_to_expiry) *
        (if pyLower option_type = "call" then normCdf d2 else normCdf (-d2))) / 365
    let vega := spot_price * normPdf d1 * Real.sqrt time_to_expiry / 100
    { delta := round4 delta
      gamma := round4 gamma
      theta := round4 theta
      vega := round4 vega
      rho := round4 rho
      implied_volatility := volatility }

/-- Shallow embedding of `OptionsGreeks.calculate_greeks` from
`polygon_mcp_server_clean.py` (lines 30-64), identical in
`polygon_mcp_server_stdio.py` (lines 38-72): no expiry short-circuit, the
put theta adds the rate term, and rho omits the negation for puts. -/
def calculate_greeks_clean
    (spot_price strike_price time_to_expiry risk_free_rate volatility : ℝ)
    (option_type : String) : CleanGreeks :=
  let d1 := (Real.log (spot_price / strike_price) +
      (risk_free_rate + 0.5 * volatility ^ 2) * time_to_expiry) /
      (volatility * Real.sqrt time_to_expiry)
  let d2 := d1 - volatility * Real.sqrt time_to_expiry
  let delta := if pyLower option_type = "call" then normCdf d1 else normCdf d1 - 1
  let theta := if pyLower option_type = "call" then
      (-spot_price * normPdf d1 * volatility / (2 * Real.sqrt time_to_expiry) -
        risk_free_rate * strike_price * Real.exp (-risk_free_rate * time_to_expiry) *
          normCdf d2) / 365
    else
      (-spot_price * normPdf d1 * volatility / (2 * Real.sqrt time_to_expiry) +
        risk_free_rate * strike_price * Real.exp (-risk_free_rate * time_to_expiry) *
          normCdf (-d2)) / 365
  let gamma := normPdf d1 / (spot_price * volatility * Real.sqrt time_to_expiry)
  let vega := spot_price * normPdf d1 * Real.sqrt time_to_expiry / 100
  let rho := strike_price * time_to_expiry * Real.exp (-risk_free_rate * time_to_expiry) *
      (if pyLower option_type = "call" then normCdf d2 else normCdf (-d2)) / 100
  { delta := round4 delta
    gamma := round4 gamma
    theta := round4 theta
    vega := round4 vega
    rho := round4 rho }

theorem pyLower_call : pyLower "call" = "call" := by decide

theorem pyLower_put : pyLower "put" = "put" := by decide

theorem calculate_greeks_expiry (S K T r v : ℝ) (ot : String) (hT : T ≤ 0) :
    calculate_greeks S K T r v ot =
      { delta := if pyLower ot = "call" ∧ S > K then 1.0 else 0.0
        gamma := 0.0
        theta := 0.0
        vega := 0.0
        rho := 0.0
        implied_volatility := v } := by
  rw [calculate_greeks, if_pos hT]

theorem calculate_greeks_call (S K T r v : ℝ) (ot : String) (hT : 0 < T)
    (hot : pyLower ot = "call") :
    calculate_greeks S K T r v ot =
      { delta := round4 (normCdf ((Real.log (S / K) + (r + 0.5 * v ^ 2) * T) /
          (v * Real.sqrt T)))
        gamma := round4 (normPdf ((Real.log (S / K) + (r + 0.5 * v ^ 2) * T) /
          (v * Real.sqrt T)) / (S * v * Real.sqrt T))
        theta := round4 ((-(S * normPdf ((Real.log (S / K) + (r + 0.5 * v ^ 2) * T) /
          (v * Real.sqrt T)) * v) / (2 * Real.sqrt T) -
          r * K * Real.exp (-r * T) *
          normCdf ((Real.log (S / K) + (r + 0.5 * v ^ 2) * T) / (v * Real.sqrt T) -
            v * Real.sqrt T)) / 365)
        vega := round4 (S * normPdf ((Real.log (S / K) + (r + 0.5 * v ^ 2) * T) /
          (v * Real.sqrt T)) * Real.sqrt T / 100)
        rho := round4 (K * T * Real.exp (-r * T) *
          normCdf ((Real.log (S / K) + (r + 0.5 * v ^ 2) * T) / (v * Real.sqrt T) -
            v * Real.sqrt T) / 100)
        implied_volatility := v } := by
  rw [calculate_greeks, if_neg (not_le.mpr hT)]
  simp only [hot, if_pos]

theorem calculate_greeks_put (S K T r v : ℝ) (ot : String) (hT : 0 < T)
    (hot : pyLower ot = "put") :
    calculate_greeks S K T r v ot =
      { delta := round4 (-normCdf (-((Real.log (S / K) + (r + 0.5 * v ^ 2) * T) /
          (v * Real.sqrt T))))
        gamma := round4 (normPdf ((Real.log (S / K) + (r + 0.5 * v ^ 2) * T) /
          (v * Real.sqrt T)) / (S * v * Real.sqrt T))
        theta := round4 ((-(S * normPdf ((Real.log (S / K) + (r + 0.5 * v ^ 2) * T) /
          (v * Real.sqrt T)) * v) / (2 * Real.sqrt T) -
          r * K * Real.exp (-r * T) *
          normCdf (-((Real.log (S / K) + (r + 0.5 * v ^ 2) * T) / (v * Real.sqrt T) -
            v * Real.sqrt T))) / 365)
        vega := round4 (S * normPdf ((Real.log (S / K) + (r + 0.5 * v ^ 2) * T) /
          (v * Real.sqrt T)) * Real.sqrt T / 100)
        rho := round4 (-K * T * Real.exp (-r * T) *
          normCdf (-((Real.log (S / K) + (r + 0.5 * v ^ 2) * T) / (v * Real.sqrt T) -
            v * Real.sqrt T)) / 100)
        implied_volatility := v } := by
  rw [calculate_greeks, if_neg (not_le.mpr hT)]
  have hne : ¬ pyLower ot = "call" := by rw [hot]; decide
  simp only [hne, if_neg, if_false]

end

noncomputable section

theorem calculate_greeks_clean_call (S K T r v : ℝ) (ot : String)
    (hot : pyLower ot = "call") :
    calculate_greeks_clean S K T r v ot =
      { delta := round4 (normCdf ((Real.log (S / K) + (r + 0.5 * v ^ 2) * T) /
          (v * Real.sqrt T)))
        gamma := round4 (normPdf ((Real.log (S / K) + (r + 0.5 * v ^ 2) * T) /
          (v * Real.sqrt T)) / (S * v * Real.sqrt T))
        theta := round4 ((-S * normPdf ((Real.log (S / K) + (r + 0.5 * v ^ 2) * T) /
          (v * Real.sqrt T)) * v / (2 * Real.sqrt T) -
          r * K * Real.exp (-r * T) *
          normCdf ((Real.log (S / K) + (r + 0.5 * v ^ 2) * T) / (v * Real.sqrt T) -
            v * Real.sqrt T)) / 365)
        vega := round4 (S * normPdf ((Real.log (S / K) + (r + 0.5 * v ^ 2) * T) /
          (v * Real.sqrt T)) * Real.sqrt T / 100)
        rho := round4 (K * T * Real.exp (-r * T) *
          normCdf ((Real.log (S / K) + (r + 0.5 * v ^ 2) * T) / (v * Real.sqrt T) -
            v * Real.sqrt T) / 100) } := by
  rw [calculate_greeks_clean]
  simp only [hot, if_pos]

theorem calculate_greeks_clean_put (S K T r v : ℝ) (ot : String)
    (hot : pyLower ot = "put") :
    calculate_greeks_clean S K T r v ot =
      { delta := round4 (normCdf ((Real.log (S / K) + (r + 0.5 * v ^ 2) * T) /
          (v * Real.sqrt T)) - 1)
        gamma := round4 (normPdf ((Real.log (S / K) + (r + 0.5 * v ^ 2) * T) /
          (v * Real.sqrt T)) / (S * v * Real.sqrt T))
        theta := round4 ((-S * normPdf ((Real.log (S / K) + (r + 0.5 * v ^ 2) * T) /
          (v * Real.sqrt T)) * v / (2 * Real.sqrt T) +
          r * K * Real.exp (-r * T) *
          normCdf (-((Real.log (S / K) + (r + 0.5 * v ^ 2) * T) / (v * Real.sqrt T) -
            v * Real.sqrt T))) / 365)
        vega := round4 (S * normPdf ((Real.log (S / K) + (r + 0.5 * v ^ 2) * T) /
          (v * Real.sqrt T)) * Real.sqrt T / 100)
        rho := round4 (K * T * Real.exp (-r * T) *
          normCdf (-((Real.log (S / K) + (r + 0.5 * v ^ 2) * T) / (v * Real.sqrt T) -
            v * Real.sqrt T)) / 100) } := by
  rw [calculate_greeks_clean]
  have hne : ¬ pyLower ot = "call" := by rw [hot]; decide
  simp only [hne, if_neg, if_false]

/-- One strategy leg of `analyze_options_strategy` in `polygon_mcp_server.py`:
a JSON dict whose fields `action` and `quantity` may be absent (modelled with
`Option`, read through Python `dict.get`). -/
structure StrategyLeg where
  strike_price : ℝ
  expiration_date : String
  option_type : String
  volatility : Option ℝ
  action : Option String
  quantity : Option ℝ

/-- Net Greeks of the strategy analysis result of `analyze_options_strategy`. -/
structure NetGreeks where
  net_delta : ℝ
  net_gamma : ℝ
  net_theta : ℝ
  net_vega : ℝ

/-- One iteration of the accumulation loop of `analyze_options_strategy`
(`polygon_mcp_server.py` lines 270-284). The second component of an item is
the outcome of the awaited `calculate_option_greeks` call for that leg:
`some g` when the returned dict has a `greeks` key, `none` when it is an
error dict (the loop then skips the leg). Python computes
`multiplier = leg.get("quantity", 1) * (1 if leg.get("action") == "buy" else -1)`
and adds `greeks[field] * multiplier` to each running total. -/
def legStep (acc : ℝ × ℝ × ℝ × ℝ) (item : StrategyLeg × Option Greeks) : ℝ × ℝ × ℝ × ℝ :=
  match item.2 with
  | none => acc
  | some g =>
    let multiplier := item.1.quantity.getD 1 * (if item.1.action = some "buy" then 1 else -1)
    (acc.1 + g.delta * multiplier, acc.2.1 + g.gamma * multiplier,
      acc.2.2.1 + g.theta * multiplier, acc.2.2.2 + g.vega * multiplier)

/-- Running totals `(total_delta, total_gamma, total_theta, total_vega)` of the
loop in `analyze_options_strategy`, all starting at 0. -/
def sums4 (legs : List (StrategyLeg × Option Greeks)) : ℝ × ℝ × ℝ × ℝ :=
  legs.foldl legStep (0, 0, 0, 0)

/-- Shallow embedding of the net-Greeks part of
`PolygonMCPClient.analyze_options_strategy` (`polygon_mcp_server.py`
lines 268-289): run the accumulation loop over the legs and round each final
total to 4 decimal places. -/
def analyze_options_strategy_net (legs : List (StrategyLeg × Option Greeks)) : NetGreeks :=
  { net_delta := round4 (sums4 legs).1
    net_gamma := round4 (sums4 legs).2.1
    net_theta := round4 (sums4 legs).2.2.1
    net_vega := round4 (sums4 legs).2.2.2 }

/-- Signed contribution of a single leg to one running total, `f` selecting
the Greek field. -/
def legContrib (f : Greeks → ℝ) : StrategyLeg × Option Greeks → ℝ
  | (_, none) => 0
  | (leg, some g) => f g * (leg.quantity.getD 1 * (if leg.action = some "buy" then 1 else -1))

theorem foldl_legStep (legs : List (StrategyLeg × Option Greeks)) :
    ∀ acc : ℝ × ℝ × ℝ × ℝ, legs.foldl legStep acc =
      (acc.1 + (legs.map (legContrib Greeks.delta)).sum,
        acc.2.1 + (legs.map (legContrib Greeks.gamma)).sum,
        acc.2.2.1 + (legs.map (legContrib Greeks.theta)).sum,
        acc.2.2.2 + (legs.map (legContrib Greeks.vega)).sum) := by
  induction legs with
  | nil => intro acc; simp
  | cons hd tl ih =>
    intro acc
    obtain ⟨leg, og⟩ := hd
    cases og with
    | none =>
      rw [List.foldl_cons, ih]
      simp [legStep, legContrib]
    | some g =>
      rw [List.foldl_cons, ih]
      simp only [legStep, legContrib, List.map_cons, List.sum_cons]
      refine Prod.ext ?_ (Prod.ext ?_ (Prod.ext ?_ ?_)) <;> simp <;> ring

theorem sums4_eq (legs : List (StrategyLeg × Option Greeks)) :
    sums4 legs =
      ((legs.map (legContrib Greeks.delta)).sum,
        (legs.map (legContrib Greeks.gamma)).sum,
        (legs.map (legContrib Greeks.theta)).sum,
        (legs.map (legContrib Greeks.vega)).sum) := by
  rw [sums4, foldl_legStep]
  simp

end

noncomputable section

/-- Transcription of `d1` as written in the specification, section 4.1. -/
def specD1 (spot strike T r vol : ℝ) : ℝ :=
  (Real.log (spot / strike) + (r + 0.5 * vol ^ 2) * T) / (vol * Real.sqrt T)

/-- Transcription of `d2` as written in the specification, section 4.1. -/
def specD2 (spot strike T r vol : ℝ) : ℝ :=
  specD1 spot strike T r vol - vol * Real.sqrt T

/-- Spec formula `delta = N(d1)` for a CALL. -/
def specCallDelta (spot strike T r vol : ℝ) : ℝ := normCdf (specD1 spot strike T r vol)

/-- Spec formula for the CALL theta (annualized decay divided by 365). -/
def specCallTheta (spot strike T r vol : ℝ) : ℝ :=
  (-spot * normPdf (specD1 spot strike T r vol) * vol / (2 * Real.sqrt T) -
    r * strike * Real.exp (-r * T) * normCdf (specD2 spot strike T r vol)) / 365

/-- Spec formula `rho = strike * T * exp(-r*T) * N(d2) / 100` for a CALL. -/
def specCallRho (spot strike T r vol : ℝ) : ℝ :=
  strike * T * Real.exp (-r * T) * normCdf (specD2 spot strike T r vol) / 100

/-- Spec formula `delta = N(d1) - 1` for a PUT. -/
def specPutDelta (spot strike T r vol : ℝ) : ℝ := normCdf (specD1 spot strike T r vol) - 1

/-- Spec formula for the PUT theta: the rate term enters with a plus sign. -/
def specPutTheta (spot strike T r vol : ℝ) : ℝ :=
  (-spot * normPdf (specD1 spot strike T r vol) * vol / (2 * Real.sqrt T) +
    r * strike * Real.exp (-r * T) * normCdf (-specD2 spot strike T r vol)) / 365

/-- Spec formula `rho = -strike * T * exp(-r*T) * N(-d2) / 100` for a PUT. -/
def specPutRho (spot strike T r vol : ℝ) : ℝ :=
  -(strike * T * Real.exp (-r * T) * normCdf (-specD2 spot strike T r vol)) / 100

/-- Spec formula `gamma = n(d1) / (spot * vol * sqrt(T))`, shared by CALL and PUT. -/
def specGamma (spot strike T r vol : ℝ) : ℝ :=
  normPdf (specD1 spot strike T r vol) / (spot * vol * Real.sqrt T)

/-- Spec formula `vega = spot * n(d1) * sqrt(T) / 100`, shared by CALL and PUT. -/
def specVega (spot strike T r vol : ℝ) : ℝ :=
  spot * normPdf (specD1 spot strike T r vol) * Real.sqrt T / 100

theorem d1_scen :
    (Real.log ((150:ℝ) / 150) + ((0.05:ℝ) + 0.5 * (0.25:ℝ) ^ 2) * 0.25) /
      ((0.25:ℝ) * Real.sqrt 0.25) = 0.1625 := by
  rw [show ((150:ℝ) / 150) = 1 by norm_num, Real.log_one, sqrt_quarter]
  norm_num

theorem d2_scen :
    (Real.log ((150:ℝ) / 150) + ((0.05:ℝ) + 0.5 * (0.25:ℝ) ^ 2) * 0.25) /
      ((0.25:ℝ) * Real.sqrt 0.25) - (0.25:ℝ) * Real.sqrt 0.25 = 0.0375 := by
  rw [d1_scen, sqrt_quarter]
  norm_num

theorem scen_call_delta : (calculate_greeks 150 150 0.25 0.05 0.25 "call").delta = 0.5645 := by
  rw [calculate_greeks_call 150 150 0.25 0.05 0.25 "call" (by norm_num) pyLower_call]
  show round4 (normCdf ((Real.log ((150:ℝ) / 150) + ((0.05:ℝ) + 0.5 * (0.25:ℝ) ^ 2) * 0.25) /
    ((0.25:ℝ) * Real.sqrt 0.25))) = 0.5645
  rw [d1_scen, round4_eq 5645 (by push_cast; nlinarith [normCdf_scen_bounds.1])
    (by push_cast; nlinarith [normCdf_scen_bounds.2])]
  norm_num

theorem scen_call_gamma : (calculate_greeks 150 150 0.25 0.05 0.25 "call").gamma = 0.021 := by
  rw [calculate_greeks_call 150 150 0.25 0.05 0.25 "call" (by norm_num) pyLower_call]
  show round4 (normPdf ((Real.log ((150:ℝ) / 150) + ((0.05:ℝ) + 0.5 * (0.25:ℝ) ^ 2) * 0.25) /
    ((0.25:ℝ) * Real.sqrt 0.25)) / ((150:ℝ) * 0.25 * Real.sqrt 0.25)) = 0.021
  rw [d1_scen, sqrt_quarter]
  refine (round4_eq 210 ?_ ?_).trans (by norm_num)
  · push_cast
    rw [div_mul_eq_mul_div, lt_div_iff₀ (by norm_num)]
    nlinarith [normPdf_scen_bounds.1]
  · push_cast
    rw [div_mul_eq_mul_div, div_lt_iff₀ (by norm_num)]
    nlinarith [normPdf_scen_bounds.2]

theorem scen_call_vega : (calculate_greeks 150 150 0.25 0.05 0.25 "call").vega = 0.2953 := by
  rw [calculate_greeks_call 150 150 0.25 0.05 0.25 "call" (by norm_num) pyLower_call]
  show round4 ((150:ℝ) * normPdf ((Real.log ((150:ℝ) / 150) +
    ((0.05:ℝ) + 0.5 * (0.25:ℝ) ^ 2) * 0.25) / ((0.25:ℝ) * Real.sqrt 0.25)) *
    Real.sqrt 0.25 / 100) = 0.2953
  rw [d1_scen, sqrt_quarter]
  refine (round4_eq 2953 ?_ ?_).trans (by norm_num)
  · push_cast
    rw [div_mul_eq_mul_div, lt_div_iff₀ (by norm_num)]
    nlinarith [normPdf_scen_bounds.1]
  · push_cast
    rw [div_mul_eq_mul_div, div_lt_iff₀ (by norm_num)]
    nlinarith [normPdf_scen_bounds.2]

end

noncomputable section

theorem prod_exp_cdf_bounds :
    (0.478979:ℝ) ≤ Real.exp (-(0.0125:ℝ)) * (1 - normCdf 0.0375) ∧
    Real.exp (-(0.0125:ℝ)) * (1 - normCdf 0.0375) ≤ 0.479038 := by
  have hNN_lo : (0.485043:ℝ) ≤ 1 - normCdf 0.0375 := by linarith [normCdf_d2_scen_bounds.2]
  have hNN_hi : 1 - normCdf 0.0375 ≤ 0.485044 := by linarith [normCdf_d2_scen_bounds.1]
  constructor
  · nlinarith [exp_scen_bounds.1, hNN_lo, Real.exp_pos (-(0.0125:ℝ))]
  · nlinarith [exp_scen_bounds.2, hNN_hi, hNN_lo, exp_scen_bounds.1,
      Real.exp_pos (-(0.0125:ℝ))]

theorem scen_put_theta : (calculate_greeks 150 150 0.25 0.05 0.25 "put").theta = -0.0503 := by
  rw [calculate_greeks_put 150 150 0.25 0.05 0.25 "put" (by norm_num) pyLower_put]
  show round4 ((-((150:ℝ) * normPdf ((Real.log ((150:ℝ) / 150) +
      ((0.05:ℝ) + 0.5 * (0.25:ℝ) ^ 2) * 0.25) / ((0.25:ℝ) * Real.sqrt 0.25)) * 0.25) /
      (2 * Real.sqrt 0.25) - (0.05:ℝ) * 150 * Real.exp (-(0.05:ℝ) * 0.25) *
      normCdf (-((Real.log ((150:ℝ) / 150) + ((0.05:ℝ) + 0.5 * (0.25:ℝ) ^ 2) * 0.25) /
      ((0.25:ℝ) * Real.sqrt 0.25) - (0.25:ℝ) * Real.sqrt 0.25))) / 365) = -0.0503
  rw [d2_scen, d1_scen, sqrt_quarter, normCdf_neg,
    show (-(0.05:ℝ) * 0.25) = -(0.0125:ℝ) by norm_num,
    show ((2:ℝ) * 0.5) = 1 by norm_num, div_one]
  refine (round4_eq (-503) ?_ ?_).trans (by norm_num)
  · push_cast
    rw [div_mul_eq_mul_div, lt_div_iff₀ (by norm_num)]
    nlinarith [normPdf_scen_bounds.2, prod_exp_cdf_bounds.2]
  · push_cast
    rw [div_mul_eq_mul_div, div_lt_iff₀ (by norm_num)]
    nlinarith [normPdf_scen_bounds.1, prod_exp_cdf_bounds.1]

theorem spec_put_theta_scen : round4 (specPutTheta 150 150 0.25 0.05 0.25) = -0.0306 := by
  simp only [specPutTheta, specD2, specD1]
  rw [d2_scen, d1_scen, sqrt_quarter, normCdf_neg,
    show (-(0.05:ℝ) * 0.25) = -(0.0125:ℝ) by norm_num,
    show ((2:ℝ) * 0.5) = 1 by norm_num, div_one]
  refine (round4_eq (-306) ?_ ?_).trans (by norm_num)
  · push_cast
    rw [div_mul_eq_mul_div, lt_div_iff₀ (by norm_num)]
    nlinarith [normPdf_scen_bounds.2, prod_exp_cdf_bounds.1]
  · push_cast
    rw [div_mul_eq_mul_div, div_lt_iff₀ (by norm_num)]
    nlinarith [normPdf_scen_bounds.1, prod_exp_cdf_bounds.2]

theorem scen_clean_put_rho :
    (calculate_greeks_clean 150 150 0.25 0.05 0.25 "put").rho = 0.1796 := by
  rw [calculate_greeks_clean_put 150 150 0.25 0.05 0.25 "put" pyLower_put]
  show round4 ((150:ℝ) * 0.25 * Real.exp (-(0.05:ℝ) * 0.25) *
      normCdf (-((Real.log ((150:ℝ) / 150) + ((0.05:ℝ) + 0.5 * (0.25:ℝ) ^ 2) * 0.25) /
      ((0.25:ℝ) * Real.sqrt 0.25) - (0.25:ℝ) * Real.sqrt 0.25)) / 100) = 0.1796
  rw [d2_scen, normCdf_neg, show (-(0.05:ℝ) * 0.25) = -(0.0125:ℝ) by norm_num]
  refine (round4_eq 1796 ?_ ?_).trans (by norm_num)
  · push_cast
    rw [div_mul_eq_mul_div, lt_div_iff₀ (by norm_num)]
    nlinarith [prod_exp_cdf_bounds.1]
  · push_cast
    rw [div_mul_eq_mul_div, div_lt_iff₀ (by norm_num)]
    nlinarith [prod_exp_cdf_bounds.2]

theorem spec_put_rho_scen : round4 (specPutRho 150 150 0.25 0.05 0.25) = -0.1796 := by
  simp only [specPutRho, specD2, specD1]
  rw [d2_scen, normCdf_neg, show (-(0.05:ℝ) * 0.25) = -(0.0125:ℝ) by norm_num]
  refine (round4_eq (-1796) ?_ ?_).trans (by norm_num)
  · push_cast
    rw [div_mul_eq_mul_div, lt_div_iff₀ (by norm_num)]
    nlinarith [prod_exp_cdf_bounds.2]
  · push_cast
    rw [div_mul_eq_mul_div, div_lt_iff₀ (by norm_num)]
    nlinarith [prod_exp_cdf_bounds.1]

end

noncomputable section

/-- Helper: the aggregator output as the rounded closed-form signed sums. -/
theorem analyze_options_strategy_net_eq (legs : List (StrategyLeg × Option Greeks)) :
    analyze_options_strategy_net legs =
      { net_delta := round4 ((legs.map (legContrib Greeks.delta)).sum)
        net_gamma := round4 ((legs.map (legContrib Greeks.gamma)).sum)
        net_theta := round4 ((legs.map (legContrib Greeks.theta)).sum)
        net_vega := round4 ((legs.map (legContrib Greeks.vega)).sum) } := by
  rw [analyze_options_strategy_net, sums4_eq]

/-- C1: for every input with spot, strike, volatility and time to expiry all
positive, `calculate_greeks` with a CALL option type returns exactly the
rounded spec formulas: delta = N(d1), theta, rho, gamma and vega as written in
the specification, in both the `polygon_mcp_server.py` variant and the
`polygon_mcp_server_clean.py` variant. -/
theorem call_greeks_follow_spec_formulas
    (S K T r v : ℝ) (ot : String) (hS : 0 < S) (hK : 0 < K) (hv : 0 < v) (hT : 0 < T)
    (hot : pyLower ot = "call") :
    (calculate_greeks S K T r v ot).delta = round4 (specCallDelta S K T r v) ∧
    (calculate_greeks S K T r v ot).theta = round4 (specCallTheta S K T r v) ∧
    (calculate_greeks S K T r v ot).rho = round4 (specCallRho S K T r v) ∧
    (calculate_greeks S K T r v ot).gamma = round4 (specGamma S K T r v) ∧
    (calculate_greeks S K T r v ot).vega = round4 (specVega S K T r v) ∧
    (calculate_greeks_clean S K T r v ot).delta = round4 (specCallDelta S K T r v) ∧
    (calculate_greeks_clean S K T r v ot).theta = round4 (specCallTheta S K T r v) ∧
    (calculate_greeks_clean S K T r v ot).rho = round4 (specCallRho S K T r v) ∧
    (calculate_greeks_clean S K T r v ot).gamma = round4 (specGamma S K T r v) ∧
    (calculate_greeks_clean S K T r v ot).vega = round4 (specVega S K T r v) := by
  rw [calculate_greeks_call S K T r v ot hT hot, calculate_greeks_clean_call S K T r v ot hot]
  simp only [specCallDelta, specCallTheta, specCallRho, specGamma, specVega, specD2, specD1,
    true_and, and_true]
  congr 1
  ring

theorem call_greeks_follow_spec_formulas_witness :
    (calculate_greeks 150 150 0.25 0.05 0.25 "call").delta
      = round4 (specCallDelta 150 150 0.25 0.05 0.25) :=
  (call_greeks_follow_spec_formulas 150 150 0.25 0.05 0.25 "call"
    (by norm_num) (by norm_num) (by norm_num) (by norm_num) pyLower_call).1

/-- C2: evidence of the sign slips in the PUT branch. At the scenario inputs
spot = strike = 150, T = 0.25, r = 0.05, vol = 0.25, the PUT theta computed by
`polygon_mcp_server.py` rounds to -0.0503 while the spec formula (with the
rate term added, as also implemented by `polygon_mcp_server_clean.py`,
`polygon_mcp_server_stdio.py` and `market_parser_demo.py`) rounds to -0.0306,
and the PUT rho computed by the clean/stdio variant rounds to +0.1796 while
the spec formula (negative, as also implemented by `polygon_mcp_server.py` and
`market_parser_demo.py`) rounds to -0.1796. -/
theorem put_theta_rho_sign_bug :
    (calculate_greeks 150 150 0.25 0.05 0.25 "put").theta = -0.0503 ∧
    round4 (specPutTheta 150 150 0.25 0.05 0.25) = -0.0306 ∧
    (calculate_greeks 150 150 0.25 0.05 0.25 "put").theta
      ≠ round4 (specPutTheta 150 150 0.25 0.05 0.25) ∧
    (calculate_greeks_clean 150 150 0.25 0.05 0.25 "put").rho = 0.1796 ∧
    round4 (specPutRho 150 150 0.25 0.05 0.25) = -0.1796 ∧
    (calculate_greeks_clean 150 150 0.25 0.05 0.25 "put").rho
      ≠ round4 (specPutRho 150 150 0.25 0.05 0.25) := by
  refine ⟨scen_put_theta, spec_put_theta_scen, ?_, scen_clean_put_rho, spec_put_rho_scen, ?_⟩
  · rw [scen_put_theta, spec_put_theta_scen]
    norm_num
  · rw [scen_clean_put_rho, spec_put_rho_scen]
    norm_num

/-- C3 counterexample: at or after expiry `polygon_mcp_server.py` returns
delta = 0.0 for an in-the-money put (spot 100, strike 150), not the -1.0 the
claim's symmetric handling requires. -/
theorem expired_itm_put_delta_is_zero :
    (calculate_greeks 100 150 0 0.05 0.25 "put").delta = 0 ∧
    (calculate_greeks 100 150 0 0.05 0.25 "put").delta ≠ -1 := by
  have h := calculate_greeks_expiry 100 150 0 0.05 0.25 "put" le_rfl
  have hcond : ¬ (pyLower "put" = "call" ∧ (100:ℝ) > 150) := by
    rintro ⟨hc, -⟩
    rw [pyLower_put] at hc
    exact absurd hc (by decide)
  rw [h]
  dsimp only
  rw [if_neg hcond]
  norm_num

/-- C3 amended: when `time_to_expiry ≤ 0`, `calculate_greeks` of
`polygon_mcp_server.py` consistently short-circuits (Variant A) and returns
delta = 1.0 exactly when the option is a CALL with spot > strike and 0.0
otherwise — including every put, whatever its moneyness — with
gamma = theta = vega = rho = 0.0 and `implied_volatility` echoing the input. -/
theorem expiry_short_circuit_policy (S K T r v : ℝ) (ot : String) (hT : T ≤ 0) :
    calculate_greeks S K T r v ot =
      { delta := if pyLower ot = "call" ∧ S > K then 1.0 else 0.0
        gamma := 0.0
        theta := 0.0
        vega := 0.0
        rho := 0.0
        implied_volatility := v } :=
  calculate_greeks_expiry S K T r v ot hT

theorem expiry_short_circuit_policy_witness :
    calculate_greeks 100 150 0 0.05 0.25 "put" =
      { delta := if pyLower "put" = "call" ∧ (100:ℝ) > 150 then 1.0 else 0.0
        gamma := 0.0
        theta := 0.0
        vega := 0.0
        rho := 0.0
        implied_volatility := 0.25 } :=
  expiry_short_circuit_policy 100 150 0 0.05 0.25 "put" le_rfl

end

noncomputable section

/-- C5 counterexample: with a non-positive spot price (spot = -1) the function
raises nothing and returns an ordinary Greeks record (shown on the expiry
branch, where the returned values are exact); no `InvalidInputError` exists
anywhere in the code. -/
theorem nonpositive_spot_returns_greeks :
    calculate_greeks (-1) 1 0 0.05 0.25 "call" =
      { delta := 0.0
        gamma := 0.0
        theta := 0.0
        vega := 0.0
        rho := 0.0
        implied_volatility := 0.25 } := by
  rw [calculate_greeks_expiry (-1) 1 0 0.05 0.25 "call" le_rfl]
  have hcond : ¬ (pyLower "call" = "call" ∧ ((-1:ℝ) > 1)) := by
    rintro ⟨-, hgt⟩
    norm_num at hgt
  rw [if_neg hcond]

/-- C5 amended: `calculate_greeks` performs no input validation at all: even
when spot, strike or volatility is non-positive it returns a Greeks record
instead of raising `InvalidInputError` (stated on the expiry branch where the
returned record is explicit; for positive expiry the code likewise returns,
merely with junk float values). -/
theorem no_input_validation (S K T r v : ℝ) (ot : String)
    (hneg : S ≤ 0 ∨ K ≤ 0 ∨ v ≤ 0) (hT : T ≤ 0) :
    calculate_greeks S K T r v ot =
      { delta := if pyLower ot = "call" ∧ S > K then 1.0 else 0.0
        gamma := 0.0
        theta := 0.0
        vega := 0.0
        rho := 0.0
        implied_volatility := v } :=
  calculate_greeks_expiry S K T r v ot hT

theorem no_input_validation_witness :
    calculate_greeks (-1) 1 0 0.05 0.25 "call" =
      { delta := if pyLower "call" = "call" ∧ ((-1:ℝ) > 1) then 1.0 else 0.0
        gamma := 0.0
        theta := 0.0
        vega := 0.0
        rho := 0.0
        implied_volatility := 0.25 } :=
  no_input_validation (-1) 1 0 0.05 0.25 "call" (Or.inl (by norm_num)) le_rfl

/-- C4: for every sequence of legs whose actions are BUY or SELL (with their
per-leg Greeks), the aggregator returns, for each of delta, gamma, theta and
vega, `round4` of the sum over legs of sign(action) * quantity * leg Greek,
with sign +1 for "buy" and -1 for "sell"; and the empty sequence yields
all-zero net Greeks. -/
theorem aggregator_signed_sum (legs : List (StrategyLeg × Greeks))
    (hact : ∀ it ∈ legs, it.1.action = some "buy" ∨ it.1.action = some "sell")
    (hqty : ∀ it ∈ legs, it.1.quantity.isSome) :
    analyze_options_strategy_net (legs.map fun it => (it.1, some it.2)) =
      { net_delta := round4 ((legs.map fun it =>
          (if it.1.action = some "buy" then (1:ℝ) else -1) * it.1.quantity.getD 1 *
            it.2.delta).sum)
        net_gamma := round4 ((legs.map fun it =>
          (if it.1.action = some "buy" then (1:ℝ) else -1) * it.1.quantity.getD 1 *
            it.2.gamma).sum)
        net_theta := round4 ((legs.map fun it =>
          (if it.1.action = some "buy" then (1:ℝ) else -1) * it.1.quantity.getD 1 *
            it.2.theta).sum)
        net_vega := round4 ((legs.map fun it =>
          (if it.1.action = some "buy" then (1:ℝ) else -1) * it.1.quantity.getD 1 *
            it.2.vega).sum) } ∧
    analyze_options_strategy_net [] =
      { net_delta := 0, net_gamma := 0, net_theta := 0, net_vega := 0 } := by
  have hmap : ∀ f : Greeks → ℝ,
      ((legs.map fun it => (it.1, some it.2)).map (legContrib f)) =
        legs.map fun it =>
          (if it.1.action = some "buy" then (1:ℝ) else -1) * it.1.quantity.getD 1 * f it.2 := by
    intro f
    rw [List.map_map]
    apply List.map_congr_left
    intro it _
    simp only [Function.comp, legContrib]
    ring
  constructor
  · rw [analyze_options_strategy_net_eq, hmap Greeks.delta, hmap Greeks.gamma,
      hmap Greeks.theta, hmap Greeks.vega]
  · rw [analyze_options_strategy_net_eq]
    simp [round4_zero]

/-- Concrete pair of legs for the aggregator scenario of the specification:
a bought call with delta 0.54 and a sold call with delta 0.30. -/
def witnessLegs : List (StrategyLeg × Greeks) :=
  [({ strike_price := 100, expiration_date := "2024-12-20", option_type := "call",
      volatility := none, action := some "buy", quantity := some 1 },
    { delta := 0.54, gamma := 0.03, theta := -0.02, vega := 0.12, rho := 0.05,
      implied_volatility := 0.25 }),
   ({ strike_price := 105, expiration_date := "2024-12-20", option_type := "call",
      volatility := none, action := some "sell", quantity := some 1 },
    { delta := 0.30, gamma := 0.02, theta := -0.01, vega := 0.08, rho := 0.03,
      implied_volatility := 0.25 })]

theorem aggregator_signed_sum_witness :
    analyze_options_strategy_net (witnessLegs.map fun it => (it.1, some it.2)) =
      { net_delta := round4 ((witnessLegs.map fun it =>
          (if it.1.action = some "buy" then (1:ℝ) else -1) * it.1.quantity.getD 1 *
            it.2.delta).sum)
        net_gamma := round4 ((witnessLegs.map fun it =>
          (if it.1.action = some "buy" then (1:ℝ) else -1) * it.1.quantity.getD 1 *
            it.2.gamma).sum)
        net_theta := round4 ((witnessLegs.map fun it =>
          (if it.1.action = some "buy" then (1:ℝ) else -1) * it.1.quantity.getD 1 *
            it.2.theta).sum)
        net_vega := round4 ((witnessLegs.map fun it =>
          (if it.1.action = some "buy" then (1:ℝ) else -1) * it.1.quantity.getD 1 *
            it.2.vega).sum) } ∧
    analyze_options_strategy_net [] =
      { net_delta := 0, net_gamma := 0, net_theta := 0, net_vega := 0 } :=
  aggregator_signed_sum witnessLegs
    (by intro it hit; simp [witnessLegs] at hit; rcases hit with h | h <;> simp [h])
    (by intro it hit; simp [witnessLegs] at hit; rcases hit with h | h <;> simp [h])

/-- C6: put-call parity of the rounded deltas: for identical positive inputs,
the CALL delta minus the PUT delta returned by `calculate_greeks` is exactly
1.0 (round-half-to-even commutes with the shift by 1). -/
theorem put_call_delta_parity (S K T r v : ℝ)
    (hS : 0 < S) (hK : 0 < K) (hv : 0 < v) (hT : 0 < T) :
    (calculate_greeks S K T r v "call").delta - (calculate_greeks S K T r v "put").delta
      = 1 := by
  rw [calculate_greeks_call S K T r v "call" hT pyLower_call,
    calculate_greeks_put S K T r v "put" hT pyLower_put]
  dsimp only
  rw [show -normCdf (-((Real.log (S / K) + (r + 0.5 * v ^ 2) * T) / (v * Real.sqrt T)))
      = normCdf ((Real.log (S / K) + (r + 0.5 * v ^ 2) * T) / (v * Real.sqrt T)) - 1 by
    rw [normCdf_neg]; ring]
  rw [round4_sub_one]
  ring

theorem put_call_delta_parity_witness :
    (calculate_greeks 150 150 0.25 0.05 0.25 "call").delta -
      (calculate_greeks 150 150 0.25 0.05 0.25 "put").delta = 1 :=
  put_call_delta_parity 150 150 0.25 0.05 0.25
    (by norm_num) (by norm_num) (by norm_num) (by norm_num)

/-- C7: gamma and vega do not depend on the option type: for identical
positive inputs, CALL and PUT get the same gamma and the same vega, in both
the `polygon_mcp_server.py` and the `polygon_mcp_server_clean.py` variant. -/
theorem gamma_vega_same_for_call_and_put (S K T r v : ℝ)
    (hS : 0 < S) (hK : 0 < K) (hv : 0 < v) (hT : 0 < T) :
    (calculate_greeks S K T r v "call").gamma = (calculate_greeks S K T r v "put").gamma ∧
    (calculate_greeks S K T r v "call").vega = (calculate_greeks S K T r v "put").vega ∧
    (calculate_greeks_clean S K T r v "call").gamma
      = (calculate_greeks_clean S K T r v "put").gamma ∧
    (calculate_greeks_clean S K T r v "call").vega
      = (calculate_greeks_clean S K T r v "put").vega := by
  rw [calculate_greeks_call S K T r v "call" hT pyLower_call,
    calculate_greeks_put S K T r v "put" hT pyLower_put,
    calculate_greeks_clean_call S K T r v "call" pyLower_call,
    calculate_greeks_clean_put S K T r v "put" pyLower_put]
  exact ⟨rfl, rfl, rfl, rfl⟩

theorem gamma_vega_same_for_call_and_put_witness :
    (calculate_greeks 150 150 0.25 0.05 0.25 "call").gamma
      = (calculate_greeks 150 150 0.25 0.05 0.25 "put").gamma :=
  (gamma_vega_same_for_call_and_put 150 150 0.25 0.05 0.25
    (by norm_num) (by norm_num) (by norm_num) (by norm_num)).1

/-- C8: `calculate_greeks` is a deterministic pure function of its six
arguments: two calls on componentwise-equal argument tuples produce equal
results (the embedding is a plain function of its arguments, with no clock,
global state or I/O; this mirrors the Python body, which reads nothing but
its parameters). -/
theorem calculate_greeks_deterministic
    (S1 K1 T1 r1 v1 : ℝ) (ot1 : String) (S2 K2 T2 r2 v2 : ℝ) (ot2 : String)
    (hS : S1 = S2) (hK : K1 = K2) (hT : T1 = T2) (hr : r1 = r2) (hv : v1 = v2)
    (hot : ot1 = ot2) :
    calculate_greeks S1 K1 T1 r1 v1 ot1 = calculate_greeks S2 K2 T2 r2 v2 ot2 := by
  rw [hS, hK, hT, hr, hv, hot]

theorem calculate_greeks_deterministic_witness :
    calculate_greeks 150 150 0.25 0.05 0.25 "call"
      = calculate_greeks 150 150 0.25 0.05 0.25 "call" :=
  calculate_greeks_deterministic 150 150 0.25 0.05 0.25 "call" 150 150 0.25 0.05 0.25 "call"
    rfl rfl rfl rfl rfl rfl

/-- C9 counterexample: at spot = 150, strike = 150, T = 0.25, r = 0.05,
vol = 0.25, CALL, the claimed reference values delta 0.5398, gamma 0.0388 and
vega 14.6667 are not met to 4-decimal tolerance: the vega actually returned is
0.2953, more than 14 away from 14.6667. -/
theorem scenario_reference_values_false :
    ¬ (|(calculate_greeks 150 150 0.25 0.05 0.25 "call").delta - 0.5398| ≤ 1/10000 ∧
      |(calculate_greeks 150 150 0.25 0.05 0.25 "call").gamma - 0.0388| ≤ 1/10000 ∧
      |(calculate_greeks 150 150 0.25 0.05 0.25 "call").vega - 14.6667| ≤ 1/10000) := by
  intro h
  have hv := h.2.2
  rw [scen_call_vega, abs_le] at hv
  have := hv.1
  norm_num at this

/-- C9 amended: at spot = 150, strike = 150, T = 0.25, r = 0.05, vol = 0.25,
CALL, `calculate_greeks` returns delta = 0.5645, gamma = 0.0210 and
vega = 0.2953 (the spec's quoted reference values 0.5398 / 0.0388 / 14.6667 do
not follow from its own formulas). -/
theorem scenario_actual_values :
    (calculate_greeks 150 150 0.25 0.05 0.25 "call").delta = 0.5645 ∧
    (calculate_greeks 150 150 0.25 0.05 0.25 "call").gamma = 0.021 ∧
    (calculate_greeks 150 150 0.25 0.05 0.25 "call").vega = 0.2953 :=
  ⟨scen_call_delta, scen_call_gamma, scen_call_vega⟩

/-- C10: the aggregation loop weights a leg by
`quantity.getD 1 * (if action = some "buy" then 1 else -1)`: every action
other than the string "buy" — including an absent action — yields the
multiplier `-(quantity.getD 1)`; an absent quantity defaults to 1; and a leg
whose Greeks computation returned an error (no greeks value) is skipped
silently, contributing zero to every running total. -/
theorem aggregator_implicit_semantics (legs : List (StrategyLeg × Option Greeks)) :
    analyze_options_strategy_net legs =
      { net_delta := round4 ((legs.map (legContrib Greeks.delta)).sum)
        net_gamma := round4 ((legs.map (legContrib Greeks.gamma)).sum)
        net_theta := round4 ((legs.map (legContrib Greeks.theta)).sum)
        net_vega := round4 ((legs.map (legContrib Greeks.vega)).sum) } ∧
    (∀ (leg : StrategyLeg) (g : Greeks), leg.action ≠ some "buy" →
      legContrib Greeks.delta (leg, some g) = -(leg.quantity.getD 1) * g.delta ∧
      legContrib Greeks.gamma (leg, some g) = -(leg.quantity.getD 1) * g.gamma ∧
      legContrib Greeks.theta (leg, some g) = -(leg.quantity.getD 1) * g.theta ∧
      legContrib Greeks.vega (leg, some g) = -(leg.quantity.getD 1) * g.vega) ∧
    (∀ (leg : StrategyLeg) (g : Greeks), leg.quantity = none → leg.action ≠ some "buy" →
      legContrib Greeks.delta (leg, some g) = -g.delta) ∧
    (∀ (leg : StrategyLeg) (f : Greeks → ℝ), legContrib f (leg, none) = 0) := by
  refine ⟨analyze_options_strategy_net_eq legs, ?_, ?_, ?_⟩
  · intro leg g hact
    simp only [legContrib]
    rw [if_neg hact]
    exact ⟨by ring, by ring, by ring, by ring⟩
  · intro leg g hq hact
    simp only [legContrib, hq]
    rw [if_neg hact]
    simp
  · intro leg f
    simp [legContrib]

theorem aggregator_implicit_semantics_witness :
    legContrib Greeks.delta
      ({ strike_price := 100, expiration_date := "2024-12-20", option_type := "call",
         volatility := none, action := none, quantity := none },
        some { delta := 0.5, gamma := 0.1, theta := -0.2, vega := 0.3, rho := 0.4,
               implied_volatility := 0.25 }) = -(0.5:ℝ) := by
  have h := (aggregator_implicit_semantics []).2.2.1
    { strike_price := 100, expiration_date := "2024-12-20", option_type := "call",
      volatility := none, action := none, quantity := none }
    { delta := 0.5, gamma := 0.1, theta := -0.2, vega := 0.3, rho := 0.4,
      implied_volatility := 0.25 } rfl (by simp)
  simpa using h

end

